import Mathlib

/-!
Shallow embedding of `PyInstaller/loader/pyimod02_archive.py`.

The module defines:
  * `ArchiveFile` - a lazily (re)opening file wrapper that remembers the
    cursor across `close`/`open` cycles;
  * `Archive`     - the base archive container (magic check, TOC load,
    extract, two-phase build);
  * `ZlibArchive` - the compressed (and optionally encrypted) variant.

Modelling conventions:
  * a file's contents are a `List Nat` of byte values (`Bytes`);
  * external collaborators (`marshal.dumps`/`loads`, `zlib.compress`/
    `decompress`, the cipher object) are explicit function parameters;
  * fallible Python code returns `Except PyExc`; the `PyExc` constructors
    mirror the exception classes the source can raise.
-/

namespace Pyimod02Archive

abbrev Bytes := List Nat

/-- Python exception values that the modelled code can raise.
`impError` models Python `ImportError` (raised by `ZlibArchive.extract`
with message `PYZ entry <name> failed to unmarshal`), `archiveBadMagic`
and `archiveVersionMismatch` model the two `ArchiveReadError` cases of
`Archive.checkmagic` (carrying the offending path, and for the magic case
also the class name used in the message). -/
inductive PyExc where
  | archiveBadMagic (path cls : String)
  | archiveVersionMismatch (path : String)
  | structError
  | attributeError
  | keyError (key : String)
  | eofError
  | zlibError
  | valueError
  | impError (msg : String)
  | osError
  deriving DecidableEq, Repr

/-- The message of the two `ArchiveReadError` variants, mirroring
`"%s is not a valid %s archive file"` and `"%s has version mismatch to dll"`;
other exceptions are rendered by their class name only. -/
def pyExcMsg : PyExc → String
  | .archiveBadMagic path cls => path ++ " is not a valid " ++ cls ++ " archive file"
  | .archiveVersionMismatch path => path ++ " has version mismatch to dll"
  | _ => ""

/-- `fd.seek(pos); fd.read(n)` on a file whose full contents are `data`:
returns at most `n` bytes starting at `pos`. -/
def readAt (data : Bytes) (pos n : Nat) : Bytes := (data.drop pos).take n

/-- `fd.seek(pos); fd.read()` - read from `pos` to end of file. -/
def readFrom (data : Bytes) (pos : Nat) : Bytes := data.drop pos

/-- `struct.pack('!i', n)` for a non-negative `n` (the only values the
source packs are file positions); callers guard `n < 2^31` and raise
`struct.error` otherwise, mirroring `struct.pack` overflow behaviour. -/
def packBE32 (n : Nat) : Bytes :=
  [n / 16777216 % 256, n / 65536 % 256, n / 256 % 256, n % 256]

/-- `struct.unpack('!i', b)[0]`: big-endian signed 32-bit decode; `none`
models `struct.error` when `b` does not have exactly 4 bytes. -/
def unpackBE32i (b : Bytes) : Option Int :=
  match b with
  | [a, b1, c, d] =>
    let m : Nat := ((a * 256 + b1) * 256 + c) * 256 + d
    some (if m < 2147483648 then (m : Int) else (m : Int) - 4294967296)
  | _ => none

/-! ### `ArchiveFile`: the lazy reopening file handle

State of one `ArchiveFile` instance over a fixed read-only file.
`pos` is the cursor remembered by `close`; `fd` is `none` when the
underlying handle is closed, `some c` when it is open with cursor `c`. -/

structure AFile where
  pos : Nat
  fd : Option Nat
  deriving DecidableEq, Repr

/-- `ArchiveFile.__init__`: `pos = 0`, then `__open` immediately opens the
handle and seeks to `pos`. -/
def afInit : AFile := { pos := 0, fd := some 0 }

/-- `ArchiveFile.__open` (also `__enter__`): if no underlying handle
exists, open one and seek to the recorded `pos`; otherwise no-op. -/
def afOpen (s : AFile) : AFile :=
  match s.fd with
  | none => { s with fd := some s.pos }
  | some _ => s

/-- `ArchiveFile.close`: if open, record the cursor via `tell()` into
`pos`, close the handle and clear it. -/
def afClose (s : AFile) : AFile :=
  match s.fd with
  | some c => { pos := c, fd := none }
  | none => s

/-- `self.lib.read(n)` forwarded through `__getattr__`: asserts the
handle is open (`none` models the assertion failure), returns the bytes
and advances the cursor by the number of bytes actually read. -/
def afRead (data : Bytes) (s : AFile) (n : Nat) : Option (Bytes × AFile) :=
  match s.fd with
  | none => none
  | some c =>
    let ret := readAt data c n
    some (ret, { s with fd := some (c + ret.length) })

/-- Run a sequence of `read` calls, collecting the returned byte strings. -/
def afReads (data : Bytes) (s : AFile) : List Nat → Option (List Bytes × AFile)
  | [] => some ([], s)
  | n :: ns => do
    let (b, s1) ← afRead data s n
    let (bs, s2) ← afReads data s1 ns
    pure (b :: bs, s2)

/-- Reads `ns1`, then a `close()` immediately followed by a reopen, then
reads `ns2`. -/
def afReadsWithReopen (data : Bytes) (s : AFile) (ns1 ns2 : List Nat) :
    Option (List Bytes × AFile) := do
  let (bs1, s1) ← afReads data s ns1
  let (bs2, s2) ← afReads data (afOpen (afClose s1)) ns2
  pure (bs1 ++ bs2, s2)

/-! ### Python `int()` on strings, and the `?offset` path-suffix parse -/

/-- The whitespace characters `int()` strips from both ends
(space, tab, newline, carriage return, vertical tab, form feed). -/
def pyIsSpace (c : Char) : Bool :=
  c.toNat = 32 || c.toNat = 9 || c.toNat = 10 || c.toNat = 13 || c.toNat = 11 || c.toNat = 12

/-- An ASCII decimal digit. -/
def pyIsDigit (c : Char) : Bool := 48 ≤ c.toNat && c.toNat ≤ 57

/-- Value of a decimal digit string. -/
def digitsVal (cs : List Char) : Nat :=
  cs.foldl (fun a c => 10 * a + (c.toNat - 48)) 0

/-- Strip whitespace from both ends of a character list. -/
def stripWs (cs : List Char) : List Char :=
  ((cs.dropWhile pyIsSpace).reverse.dropWhile pyIsSpace).reverse

/-- Split one optional leading sign off, returning the sign and the rest. -/
def pyIntSign (t : List Char) : Int × List Char :=
  match t with
  | [] => (1, [])
  | c :: rest =>
    if c = '-' then (-1, rest) else if c = '+' then (1, rest) else (1, t)

/-- `int(s)` on a list of characters: strip whitespace from both ends,
allow one optional sign, then require a non-empty run of ASCII decimal
digits; `none` models the `ValueError`. -/
def pyIntParseL (cs : List Char) : Option Int :=
  let t := stripWs cs
  let sd := pyIntSign t
  if !sd.2.isEmpty && sd.2.all pyIsDigit then some (sd.1 * (digitsVal sd.2 : Int)) else none

/-- The scanning loop of `ZlibArchive.__init__` when `offset is None`:
`for i in range(len(path)-1, -1, -1)` looking for a `'?'` whose suffix
parses as an integer; the argument of `parseSuffixAux` is `i + 1` for the
next index `i` to inspect (so `0` means the loop fell through to the
`else` branch: `offset = 0`, path unchanged). -/
def parseSuffixAux (path : List Char) : Nat → List Char × Int
  | 0 => (path, 0)
  | i + 1 =>
    if path.get? i = some '?' then
      match pyIntParseL (path.drop (i + 1)) with
      | some v => (path.take i, v)
      | none => parseSuffixAux path i
    else parseSuffixAux path i

/-- Offset parsing of `ZlibArchive.__init__` for `offset is None`:
returns the (possibly stripped) path and the parsed offset. -/
def parseSuffix (p : String) : String × Int :=
  let l := p.toList
  let r := parseSuffixAux l l.length
  (String.mk r.1, r.2)

/-! ### The injected cipher collaborator -/

/-- The cipher object (`pyimod05_crypto.PyiBlockCipher` or a caller
supplied one): `encrypt`/`decrypt` over byte sequences. -/
structure Cipher where
  encrypt : Bytes → Bytes
  decrypt : Bytes → Bytes

/-! ### Python dict as an insertion-ordered association list -/

/-- `d.get(k)` on an insertion-ordered dict modelled as an association
list (an existing binding is updated in place, a new one appended). -/
def tocGet {α : Type} (t : List (String × α)) (k : String) : Option α :=
  (t.find? (fun p => p.1 = k)).map Prod.snd

/-- `d[k] = v` on the association-list dict model. -/
def tocSet {α : Type} (t : List (String × α)) (k : String) (v : α) : List (String × α) :=
  if t.any (fun p => p.1 = k) then
    t.map (fun p => if p.1 = k then (k, v) else p)
  else
    t ++ [(k, v)]

/-! ### `Archive`: the base container -/

/-- `Archive.MAGIC = b'PYL\0'`. -/
def MAGIC_PYL : Bytes := [80, 89, 76, 0]

/-- `ZlibArchive.MAGIC = b'PYZ\0'`. -/
def MAGIC_PYZ : Bytes := [80, 89, 90, 0]

/-- `Archive.HDRLEN = 12`: MAGIC, Python's magic, int position of the TOC. -/
def ARCHIVE_HDRLEN : Nat := 12

/-- `Archive.TOCPOS = 8`. -/
def TOCPOS : Nat := 8

/-- `ZlibArchive.HDRLEN = Archive.HDRLEN + 5`. -/
def ZLIB_HDRLEN : Nat := ARCHIVE_HDRLEN + 5

/-- `ZlibArchive.COMPRESSION_LEVEL = 6`. -/
def COMPRESSION_LEVEL : Nat := 6

/-- `Archive.checkmagic` (shared by `ZlibArchive.checkmagic` via the
base call): seek to `start`, compare `len(MAGIC)` bytes against `magic`
and then `len(pymagic)` bytes against `pymagic`; raises an
`ArchiveReadError` naming `path` on either mismatch (the two messages
differ); finally reads and discards 4 bytes (the TOC position). -/
def checkmagicBase (magic pymagic : Bytes) (cls path : String) (data : Bytes)
    (start : Nat) : Except PyExc Unit :=
  if readAt data start magic.length ≠ magic then
    .error (.archiveBadMagic path cls)
  else if readAt data (start + magic.length) pymagic.length ≠ pymagic then
    .error (.archiveVersionMismatch path)
  else
    .ok ()

/-- `Archive.loadtoc`: seek to `start + TOCPOS`, unpack a big-endian
signed 32-bit TOC offset, seek to `start + offset` and deserialize the
rest of the file with `marshal.loads` (the parameter `loadsT`).
A short read at the offset field surfaces as `struct.error`; a negative
offset would make the later `seek` fail with `OSError`. -/
def loadtocModel {T : Type} (loadsT : Bytes → Except PyExc T) (data : Bytes)
    (start : Nat) : Except PyExc T :=
  match unpackBE32i (readAt data (start + TOCPOS) 4) with
  | none => .error .structError
  | some off =>
    if off < 0 then .error .osError
    else loadsT (readFrom data (start + off.toNat))

/-- `Archive.__init__` with a path: open the file, `checkmagic`, then
`loadtoc`; the result is the in-memory TOC. -/
def initBase {T : Type} (pymagic : Bytes) (loadsT : Bytes → Except PyExc T)
    (cls path : String) (data : Bytes) (start : Nat) : Except PyExc T := do
  checkmagicBase MAGIC_PYL pymagic cls path data start
  loadtocModel loadsT data start

/-- A base-archive TOC entry: `(ispkg, pos)`. -/
abbrev BTocEntry := Bool × Nat

/-- `Archive.extract`: look the name up in the TOC (`(0, None)` default
means absent, returning `None`), else seek to `start + pos`, read to end
of file and `marshal.loads` the bytes. -/
def extractBase {Obj : Type} (loads : Bytes → Except PyExc Obj)
    (toc : List (String × BTocEntry)) (data : Bytes) (start : Nat)
    (name : String) : Except PyExc (Option (Bool × Obj)) :=
  match tocGet toc name with
  | none => .ok none
  | some (ispkg, pos) =>
    match loads (readFrom data (start + pos)) with
    | .ok obj => .ok (some (ispkg, obj))
    | .error e => .error e

/-! ### The build-side write file (`open(path, 'wb')`) -/

/-- Overwrite `bs` into `data` at `pos`, zero-padding and extending as
needed (`pos` never exceeds the length in the modelled code paths). -/
def writeAt (data : Bytes) (pos : Nat) (bs : Bytes) : Bytes :=
  data.take pos ++ List.replicate (pos - data.length) 0 ++ bs ++ data.drop (pos + bs.length)

/-- A writable file: contents so far and the cursor (`tell()`). -/
structure WFile where
  data : Bytes
  cur : Nat
  deriving DecidableEq, Repr

/-- `lib.write(bs)`. -/
def wwrite (f : WFile) (bs : Bytes) : WFile :=
  { data := writeAt f.data f.cur bs, cur := f.cur + bs.length }

/-- `lib.seek(pos)`. -/
def wseek (f : WFile) (pos : Nat) : WFile := { f with cur := pos }

/-! ### `ZlibArchive` -/

/-- A `ZlibArchive` TOC entry: `(ispkg, pos, length)`. -/
abbrev ZTocEntry := Bool × Nat × Nat

/-- A `ZlibArchive` TOC. -/
abbrev ZToc := List (String × ZTocEntry)

/-- `os.path.basename` (posix): the part after the last `'/'`. -/
def basenameL (p : List Char) : List Char :=
  (p.reverse.takeWhile (fun c => c ≠ '/')).reverse

/-- `os.path.splitext` applied to a basename: split at the last `'.'`
unless every character before it is itself a dot. -/
def splitextL (b : List Char) : List Char × List Char :=
  match (b.reverse.indexOf? '.') with
  | none => (b, [])
  | some r =>
    let i := b.length - 1 - r
    if (b.take i).any (fun c => c ≠ '.') then (b.take i, b.drop i) else (b, [])

/-- `base == '__init__'` after `splitext(basename(pth))`: the package
flag derived in `ZlibArchive.add` (and `Archive.add`). -/
def ispkgOf (pth : String) : Bool :=
  (splitextL (basenameL pth.toList)).1 = "__init__".toList

/-- One logical-TOC entry as consumed by `ZlibArchive.add`: the internal
name (`entry[0]`) and the path (`entry[1]`). -/
structure ZEntry where
  name : String
  pth : String
  deriving DecidableEq, Repr

/-- `ZlibArchive.add`: fetch the code object from `code_dict` (a missing
name raises `KeyError`), compress its `marshal.dumps` serialization at
level 6, encrypt the result iff a cipher is configured (compression
strictly before encryption), record `(ispkg, tell(), len(obj))` in the
TOC and append the stored bytes. During building `crypted` is nonzero
exactly when a cipher was supplied, so `cipherArg` plays both roles. -/
def zadd {Code : Type} (dumps : Code → Bytes) (compress : Bytes → Nat → Bytes)
    (code_dict : String → Option Code) (cipherArg : Option Cipher)
    (st : ZToc × WFile) (e : ZEntry) : Except PyExc (ZToc × WFile) :=
  match code_dict e.name with
  | none => .error (.keyError e.name)
  | some code =>
    let ispkg := ispkgOf e.pth
    let obj0 := compress (dumps code) COMPRESSION_LEVEL
    let obj := match cipherArg with
      | some c => c.encrypt obj0
      | none => obj0
    .ok (tocSet st.1 e.name (ispkg, st.2.cur, obj.length), wwrite st.2 obj)

/-- `Archive._finalize` as specialised by `ZlibArchive`: `tell()` the TOC
position, write the marshalled TOC there, then `update_headers` seeks
back to the start and rewrites MAGIC, pymagic, the packed TOC position
and the one-byte `crypted` flag. `struct.pack('!i', ...)` overflow
raises `struct.error`. -/
def finalizeZ (pymagic : Bytes) (dumpsT : ZToc → Bytes) (flag : Nat) (toc : ZToc)
    (f1 : WFile) : Except PyExc (Bytes × ZToc) :=
  let tocPos := f1.cur
  let f2 := wwrite f1 (dumpsT toc)
  if tocPos < 2147483648 then
    .ok ((wwrite (wseek f2 0) (MAGIC_PYZ ++ pymagic ++ packBE32 tocPos ++ [flag])).data, toc)
  else
    .error .structError

/-- `ZlibArchive.build` = `_start_add_entries` (reserve `HDRLEN` zero
bytes and an empty TOC dict), `add` for each logical entry in order,
then `_finalize`. Returns the final file contents and the in-memory
TOC. -/
def buildZ {Code : Type} (pymagic : Bytes) (dumps : Code → Bytes)
    (compress : Bytes → Nat → Bytes) (dumpsT : ZToc → Bytes)
    (code_dict : String → Option Code) (cipherArg : Option Cipher)
    (entries : List ZEntry) : Except PyExc (Bytes × ZToc) :=
  match entries.foldlM (zadd dumps compress code_dict cipherArg)
      ([], ({ data := List.replicate ZLIB_HDRLEN 0, cur := ZLIB_HDRLEN } : WFile)) with
  | .error e => .error e
  | .ok (toc, f1) => finalizeZ pymagic dumpsT (if cipherArg.isSome then 1 else 0) toc f1

/-- The second half of `ZlibArchive.extract` applied to the bytes `obj`
that remain after the optional decryption: `marshal.loads(zlib.decompress
(obj))` inside a `try` that converts an `EOFError` (and only an
`EOFError`) into `ImportError("PYZ entry <name> failed to unmarshal")`. -/
def zextractCore {Obj : Type} (decompress : Bytes → Except PyExc Bytes)
    (loads : Bytes → Except PyExc Obj) (name : String) (ispkg : Bool)
    (obj : Bytes) : Except PyExc (Option (Bool × Obj)) :=
  match (do loads (← decompress obj) : Except PyExc Obj) with
  | .ok co => .ok (some (ispkg, co))
  | .error e =>
    if e = .eofError then
      .error (.impError ("PYZ entry " ++ name ++ " failed to unmarshal"))
    else
      .error e

/-- `ZlibArchive.extract`: TOC lookup with default `(0, None, 0)` (absent
name returns `None`), read exactly `lngth` bytes at `start + pos`,
decrypt iff `self.crypted` is nonzero (using a missing cipher attribute
raises `AttributeError`), then `zextractCore`. -/
def zextract {Obj : Type} (decompress : Bytes → Except PyExc Bytes)
    (loads : Bytes → Except PyExc Obj) (toc : ZToc) (data : Bytes)
    (start : Nat) (crypted : Nat) (cipher : Option Cipher)
    (name : String) : Except PyExc (Option (Bool × Obj)) :=
  match tocGet toc name with
  | none => .ok none
  | some (ispkg, pos, lngth) =>
    let obj := readAt data (start + pos) lngth
    if crypted ≠ 0 then
      match cipher with
      | some c => zextractCore decompress loads name ispkg (c.decrypt obj)
      | none => .error .attributeError
    else
      zextractCore decompress loads name ispkg obj

/-- `ZlibArchive.checkmagic`: the base check with `MAGIC = b'PYZ\0'`,
then one further byte unpacked with `'!B'` as the `crypted` flag; when
the flag is nonzero the default cipher `pyimod05_crypto.PyiBlockCipher()`
is instantiated (supplied here as `defaultCipher`). Returns the flag and
the cipher attribute it leaves behind. -/
def checkmagicZ (pymagic : Bytes) (cls path : String) (data : Bytes) (start : Nat)
    (defaultCipher : Cipher) : Except PyExc (Nat × Option Cipher) := do
  checkmagicBase MAGIC_PYZ pymagic cls path data start
  match readAt data (start + MAGIC_PYZ.length + pymagic.length + 4) 1 with
  | [b] => if b ≠ 0 then .ok (b, some defaultCipher) else .ok (b, none)
  | _ => .error .structError

/-- The state of a `ZlibArchive` instance opened over an existing file. -/
structure ZInst where
  path : String
  start : Nat
  toc : ZToc
  crypted : Nat
  cipher : Option Cipher

/-- `ZlibArchive.__init__` over an existing archive (`path` given): when
`offset` is omitted the `?<int>` suffix parse supplies it; then
`Archive.__init__` runs `checkmagic` (which sets `crypted` from the file
and possibly a default cipher) and `loadtoc`; finally the constructor
overrides: a supplied cipher forces `crypted = 1`, otherwise `crypted`
is reset to `0` (the cipher attribute left by `checkmagic` is kept).
A negative start offset would make the first `seek` raise `OSError`. -/
def initZ (pymagic : Bytes) (loadsT : Bytes → Except PyExc ZToc)
    (defaultCipher : Cipher) (fs : String → Bytes) (pathArg : String)
    (offsetArg : Option Int) (cipherArg : Option Cipher) : Except PyExc ZInst := do
  let po : String × Int := match offsetArg with
    | some o => (pathArg, o)
    | none => parseSuffix pathArg
  if po.2 < 0 then
    .error .osError
  else
    let start := po.2.toNat
    let data := fs po.1
    let (_, cipher0) ← checkmagicZ pymagic "ZlibArchive" po.1 data start defaultCipher
    let toc ← loadtocModel loadsT data start
    match cipherArg with
    | some c => .ok { path := po.1, start := start, toc := toc, crypted := 1, cipher := some c }
    | none => .ok { path := po.1, start := start, toc := toc, crypted := 0, cipher := cipher0 }

/-! ### Specification-side definitions used by the theorems -/

/-- The byte strings a cursor-`c` sequence of `read` calls returns. -/
def readOuts (data : Bytes) (c : Nat) : List Nat → List Bytes
  | [] => []
  | n :: ns => readAt data c n :: readOuts data (c + (readAt data c n).length) ns

/-- The cursor after such a sequence. -/
def readFinal (data : Bytes) (c : Nat) : List Nat → Nat
  | [] => c
  | n :: ns => readFinal data (c + (readAt data c n).length) ns

/-- The stored bytes of one payload: compress at level 6, then encrypt
iff a cipher is configured. -/
def storedOf {Code : Type} (dumps : Code → Bytes) (compress : Bytes → Nat → Bytes)
    (cipherArg : Option Cipher) (code : Code) : Bytes :=
  match cipherArg with
  | some c => c.encrypt (compress (dumps code) COMPRESSION_LEVEL)
  | none => compress (dumps code) COMPRESSION_LEVEL

/-- The payload region of a build: the stored bytes of the entries, in
order, with no padding between. -/
def payloadBytes {Code : Type} (dumps : Code → Bytes) (compress : Bytes → Nat → Bytes)
    (cipherArg : Option Cipher) (codeF : ZEntry → Code) : List ZEntry → Bytes
  | [] => []
  | e :: es => storedOf dumps compress cipherArg (codeF e) ++
      payloadBytes dumps compress cipherArg codeF es

/-- The TOC produced by folding `add` over the entries, starting from
the dict `t` with the write cursor at `off`. -/
def tocFold {Code : Type} (dumps : Code → Bytes) (compress : Bytes → Nat → Bytes)
    (cipherArg : Option Cipher) (codeF : ZEntry → Code) : List ZEntry → Nat → ZToc → ZToc
  | [], _, t => t
  | e :: es, off, t =>
    tocFold dumps compress cipherArg codeF es
      (off + (storedOf dumps compress cipherArg (codeF e)).length)
      (tocSet t e.name
        (ispkgOf e.pth, off, (storedOf dumps compress cipherArg (codeF e)).length))

/-- The same TOC as a plain list, valid when no name repeats. -/
def tocListSpec {Code : Type} (dumps : Code → Bytes) (compress : Bytes → Nat → Bytes)
    (cipherArg : Option Cipher) (codeF : ZEntry → Code) : List ZEntry → Nat → ZToc
  | [], _ => []
  | e :: es, off =>
    (e.name, (ispkgOf e.pth, off, (storedOf dumps compress cipherArg (codeF e)).length)) ::
      tocListSpec dumps compress cipherArg codeF es
        (off + (storedOf dumps compress cipherArg (codeF e)).length)

/-- The byte layout produced by `buildZ` (see `buildZ_eq`). -/
def zlibLayout (pm : Bytes) (flag : Nat) (P T : Bytes) : Bytes :=
  MAGIC_PYZ ++ pm ++ packBE32 (ZLIB_HDRLEN + P.length) ++ [flag] ++
    List.replicate 4 0 ++ P ++ T

/-- Whether an exception is the UnmarshalError of the spec, i.e. the
`ImportError` that `ZlibArchive.extract` raises for a failed unmarshal. -/
def isUnmarshalError : PyExc → Bool
  | .impError _ => true
  | _ => false

/-! ### Concrete collaborators used to exercise the model on closed inputs -/

namespace Conc

/-- A tiny stand-in for `marshal.dumps` on code objects (here `Nat`). -/
def dumpsN : Nat → Bytes := fun n => [n % 256]

/-- A tiny invertible stand-in for `zlib.compress`. -/
def compressN : Bytes → Nat → Bytes := fun b _ => 99 :: b

/-- Inverse of `compressN`; fails with `zlib.error` on other inputs. -/
def decompressN : Bytes → Except PyExc Bytes := fun b =>
  match b with
  | c :: r => if c = 99 then .ok r else .error .zlibError
  | [] => .error .zlibError

/-- A tiny stand-in for `marshal.loads` on code objects. -/
def loadsN : Bytes → Except PyExc Nat := fun b =>
  match b with
  | [n] => .ok n
  | _ => .error .valueError

def code_dictN : String → Option Nat := fun s =>
  if s = "pkg.__init__" then some 7 else if s = "pkg.mod" then some 8 else none

def codeFN : ZEntry → Nat := fun e => if e.name = "pkg.__init__" then 7 else 8

def entriesN : List ZEntry :=
  [⟨"pkg.__init__", "pkg/__init__.pyc"⟩, ⟨"pkg.mod", "pkg/mod.pyc"⟩]

def dumpsTN : ZToc → Bytes := fun _ => []

/-- The TOC `buildZ` produces on `entriesN` (offsets 17 and 19). -/
def builtTocN : ZToc := [("pkg.__init__", (true, 17, 2)), ("pkg.mod", (false, 19, 2))]

/-- The file `buildZ` produces on `entriesN` with no cipher. -/
def builtDataN : Bytes := [80, 89, 90, 0, 1, 2, 3, 4, 0, 0, 0, 21, 0, 0, 0, 0, 0, 99, 7, 99, 8]

def loadsTN : Bytes → Except PyExc ZToc := fun _ => .ok builtTocN

def fsN : String → Bytes := fun _ => builtDataN

def idCipher : Cipher := ⟨id, id⟩

end Conc

/-! ### Helper lemmas about byte slices -/

theorem unpackBE32i_packBE32 (n : Nat) (h : n < 2147483648) :
    unpackBE32i (packBE32 n) = some (n : Int) := by
  have hm : ((n / 16777216 % 256 * 256 + n / 65536 % 256) * 256 + n / 256 % 256) * 256 + n % 256
      = n := by omega
  simp only [packBE32, unpackBE32i, hm, if_pos h]

theorem readAt_start (a rest : Bytes) : readAt (a ++ rest) 0 a.length = a := by
  simp [readAt, List.take_left]

theorem readAt_mid (a rest : Bytes) (k n : Nat) :
    readAt (a ++ rest) (a.length + k) n = readAt rest k n := by
  simp [readAt, List.drop_append]

theorem readFrom_mid (a rest : Bytes) : readFrom (a ++ rest) a.length = rest := by
  simp [readFrom, List.drop_left]

/-! ### Lemmas about the lazy file handle -/

theorem afReads_eq (data : Bytes) :
    ∀ (ns : List Nat) (p c : Nat),
      afReads data ⟨p, some c⟩ ns =
        some (readOuts data c ns, ⟨p, some (readFinal data c ns)⟩)
  | [], _, _ => rfl
  | n :: ns, p, c => by
    simp only [afReads, afRead, Option.bind_eq_bind, Option.some_bind,
      afReads_eq data ns p (c + (readAt data c n).length)]
    rfl

theorem readOuts_append (data : Bytes) :
    ∀ (ns1 ns2 : List Nat) (c : Nat),
      readOuts data c (ns1 ++ ns2) =
        readOuts data c ns1 ++ readOuts data (readFinal data c ns1) ns2
  | [], _, _ => rfl
  | n :: ns1, ns2, c => by
    show readOuts data c ((n :: ns1) ++ ns2) = _
    rw [List.cons_append, readOuts, readOuts, readFinal,
      readOuts_append data ns1 ns2, List.cons_append]

/-! ### Lemmas about `int()` parsing and the suffix scan -/

theorem pyIsSpace_of_digit {c : Char} (h : pyIsDigit c = true) : pyIsSpace c = false := by
  simp only [pyIsDigit, Bool.and_eq_true, decide_eq_true_eq] at h
  simp only [pyIsSpace, Bool.or_eq_false_iff, decide_eq_false_iff_not]
  omega

theorem mem_dropWhile_of_neg {α : Type} (p : α → Bool) (c : α) (hc : p c = false) :
    ∀ l : List α, c ∈ l → c ∈ l.dropWhile p
  | a :: t, h => by
    by_cases pa : p a = true
    · simp only [List.dropWhile_cons, pa, if_true]
      rcases List.mem_cons.mp h with rfl | ht
      · rw [pa] at hc; cases hc
      · exact mem_dropWhile_of_neg p c hc t ht
    · simp only [List.dropWhile_cons, pa, if_false]
      exact h

theorem mem_stripWs {c : Char} {cs : List Char} (h : c ∈ cs) (hc : pyIsSpace c = false) :
    c ∈ stripWs cs := by
  unfold stripWs
  rw [List.mem_reverse]
  exact mem_dropWhile_of_neg _ _ hc _
    (List.mem_reverse.mpr (mem_dropWhile_of_neg _ _ hc _ h))

theorem dropWhile_eq_self_of_head {α : Type} (p : α → Bool) (a : α) (t : List α)
    (h : p a = false) : (a :: t).dropWhile p = a :: t := by
  simp [List.dropWhile_cons, h]

theorem stripWs_of_digits (ds : List Char) (h1 : ds ≠ []) (h2 : ds.all pyIsDigit) :
    stripWs ds = ds := by
  rcases ds with _ | ⟨a, t⟩
  · cases h1 rfl
  · have ha : pyIsSpace a = false :=
      pyIsSpace_of_digit (by simp only [List.all_cons, Bool.and_eq_true] at h2; exact h2.1)
    have hlast : ∀ b ∈ (a :: t).reverse.head?.toList, pyIsSpace b = false := by
      intro b hb
      rcases hr : (a :: t).reverse with _ | ⟨r, rs⟩
      · simp [hr] at hb
      · simp only [hr, Option.toList, List.head?] at hb
        rcases List.mem_singleton.mp hb with rfl
        have : b ∈ (a :: t) := by
          rw [← List.mem_reverse, hr]; exact List.mem_cons_self _ _
        exact pyIsSpace_of_digit (List.all_eq_true.mp h2 _ this)
    unfold stripWs
    rw [dropWhile_eq_self_of_head _ _ _ ha]
    rcases hr : (a :: t).reverse with _ | ⟨r, rs⟩
    · have := congrArg List.length hr; simp at this
    · rw [dropWhile_eq_self_of_head _ _ _ (hlast r (by simp [hr]))]
      rw [← hr, List.reverse_reverse]

theorem pyIntParseL_digits (ds : List Char) (h1 : ds ≠ []) (h2 : ds.all pyIsDigit) :
    pyIntParseL ds = some (digitsVal ds : Int) := by
  rcases hds : ds with _ | ⟨a, t⟩
  · cases h1 hds
  · subst hds
    have ha : pyIsDigit a = true := by
      simp only [List.all_cons, Bool.and_eq_true] at h2; exact h2.1
    have han : 48 ≤ a.toNat ∧ a.toNat ≤ 57 := by
      simp only [pyIsDigit, Bool.and_eq_true, decide_eq_true_eq] at ha; exact ha
    have hminus : a ≠ '-' := by
      intro hc
      have := congrArg Char.toNat hc
      rw [show Char.toNat '-' = 45 from rfl] at this
      omega
    have hplus : a ≠ '+' := by
      intro hc
      have := congrArg Char.toNat hc
      rw [show Char.toNat '+' = 43 from rfl] at this
      omega
    unfold pyIntParseL
    rw [stripWs_of_digits _ h1 h2]
    simp only [pyIntSign, if_neg hminus, if_neg hplus]
    simp [h2]

theorem pyIntParseL_of_mem_qmark (cs : List Char) (h : '?' ∈ cs) :
    pyIntParseL cs = none := by
  have hq : pyIsSpace '?' = false := by decide
  have hmem : '?' ∈ stripWs cs := mem_stripWs h hq
  unfold pyIntParseL
  rcases ht : stripWs cs with _ | ⟨a, t⟩
  · rw [ht] at hmem; cases hmem
  · rw [ht] at hmem
    have hdigs : ∀ digs : List Char, '?' ∈ digs → (!digs.isEmpty && digs.all pyIsDigit) = false := by
      intro digs hd
      have : digs.all pyIsDigit = false := by
        rcases hall : digs.all pyIsDigit with _ | _
        · rfl
        · exact absurd (List.all_eq_true.mp hall _ hd) (by decide)
      simp [this]
    simp only [pyIntSign]
    by_cases hm : a = '-'
    · subst hm
      have : '?' ∈ t := by
        rcases List.mem_cons.mp hmem with hc | hc
        · cases hc
        · exact hc
      rw [if_pos rfl, hdigs t this, if_neg (by simp)]
    · by_cases hp : a = '+'
      · subst hp
        have : '?' ∈ t := by
          rcases List.mem_cons.mp hmem with hc | hc
          · cases hc
          · exact hc
        rw [if_neg hm, if_pos rfl, hdigs t this, if_neg (by simp)]
      · rw [if_neg hm, if_neg hp, hdigs _ hmem, if_neg (by simp)]

theorem parseSuffixAux_skip (path : List Char) (m : Nat) :
    ∀ j : Nat,
      (∀ i, m ≤ i → i < m + j →
        path.get? i ≠ some '?' ∨ pyIntParseL (path.drop (i + 1)) = none) →
      parseSuffixAux path (m + j) = parseSuffixAux path m
  | 0, _ => rfl
  | j + 1, h => by
    have step : parseSuffixAux path (m + j + 1) = parseSuffixAux path (m + j) := by
      rcases h (m + j) (by omega) (by omega) with h1 | h2
      · rw [parseSuffixAux, if_neg h1]
      · by_cases hq : path.get? (m + j) = some '?'
        · rw [parseSuffixAux, if_pos hq, h2]
        · rw [parseSuffixAux, if_neg hq]
    rw [show m + (j + 1) = m + j + 1 by omega, step]
    exact parseSuffixAux_skip path m j (fun i hi hij => h i hi (by omega))

theorem parseSuffixAux_digits (pre ds : List Char) (h1 : ds ≠ [])
    (h2 : ds.all pyIsDigit = true) :
    parseSuffixAux (pre ++ '?' :: ds) (pre.length + 1 + ds.length) =
      (pre, (digitsVal ds : Int)) := by
  have hsplit : pre ++ '?' :: ds = (pre ++ ['?']) ++ ds := by simp
  have hskip : parseSuffixAux (pre ++ '?' :: ds) (pre.length + 1 + ds.length) =
      parseSuffixAux (pre ++ '?' :: ds) (pre.length + 1) := by
    apply parseSuffixAux_skip
    intro i hi hij
    left
    rw [hsplit, List.get?_append_right (by simp; omega)]
    rcases hg : ds.get? (i - (pre ++ ['?']).length) with _ | c
    · exact fun hc => Option.noConfusion hc
    · have hc : c ∈ ds := List.get?_mem hg
      have hcd : pyIsDigit c = true := List.all_eq_true.mp h2 _ hc
      simp only [pyIsDigit, Bool.and_eq_true, decide_eq_true_eq] at hcd
      intro hcq
      have := congrArg Char.toNat (Option.some.inj hcq)
      rw [show Char.toNat '?' = 63 from rfl] at this
      omega
  rw [hskip, parseSuffixAux]
  have hq : (pre ++ '?' :: ds).get? pre.length = some '?' := by
    rw [List.get?_append_right (le_refl _), Nat.sub_self]
    rfl
  rw [if_pos hq]
  have hdrop : (pre ++ '?' :: ds).drop (pre.length + 1) = ds := by
    rw [hsplit]
    exact List.drop_left' (by simp)
  rw [hdrop, pyIntParseL_digits ds h1 h2]
  rw [List.take_left' rfl]

theorem parseSuffixAux_malformed (pre suf : List Char) (hq : '?' ∉ suf)
    (hp : pyIntParseL suf = none) :
    parseSuffixAux (pre ++ '?' :: suf) (pre.length + 1 + suf.length) =
      (pre ++ '?' :: suf, 0) := by
  have hsplit : pre ++ '?' :: suf = (pre ++ ['?']) ++ suf := by simp
  have h0 : parseSuffixAux (pre ++ '?' :: suf) (0 + (pre.length + 1 + suf.length)) =
      parseSuffixAux (pre ++ '?' :: suf) 0 := by
    apply parseSuffixAux_skip
    intro i hi hij
    by_cases hqi : (pre ++ '?' :: suf).get? i = some '?'
    · right
      have hle : i ≤ pre.length := by
        by_contra hgt
        push_neg at hgt
        have hr : (pre ++ '?' :: suf).get? i = suf.get? (i - (pre ++ ['?']).length) := by
          rw [hsplit]
          exact List.get?_append_right (by simp; omega)
        rw [hr] at hqi
        exact hq (List.get?_mem hqi)
      rcases Nat.lt_or_ge i pre.length with hlt | hge
      · apply pyIntParseL_of_mem_qmark
        have hd : (pre ++ '?' :: suf).drop (i + 1) = pre.drop (i + 1) ++ '?' :: suf :=
          List.drop_append_of_le_length (by omega)
        rw [hd]
        simp
      · have hieq : i = pre.length := by omega
        rw [hieq]
        have hd : (pre ++ '?' :: suf).drop (pre.length + 1) = suf := by
          rw [hsplit]
          exact List.drop_left' (by simp)
        rw [hd]
        exact hp
    · left
      exact hqi
  rw [Nat.zero_add] at h0
  rw [h0, parseSuffixAux]

theorem parseSuffix_no_qmark (p : String) (h : '?' ∉ p.toList) : parseSuffix p = (p, 0) := by
  have h0 : parseSuffixAux p.toList (0 + p.toList.length) = parseSuffixAux p.toList 0 := by
    apply parseSuffixAux_skip
    intro i hi hij
    left
    intro hc
    exact h (List.get?_mem hc)
  rw [Nat.zero_add] at h0
  show (String.mk (parseSuffixAux p.toList p.toList.length).1,
    (parseSuffixAux p.toList p.toList.length).2) = (p, 0)
  rw [h0]
  cases p
  rfl

/-! ### The shape of a built archive -/

theorem writeAt_zero (data bs : Bytes) : writeAt data 0 bs = bs ++ data.drop bs.length := by
  unfold writeAt
  simp

theorem writeAt_end (data bs : Bytes) : writeAt data data.length bs = data ++ bs := by
  unfold writeAt
  rw [List.take_length, Nat.sub_self, List.replicate_zero,
    List.drop_eq_nil_of_le (by omega)]
  simp

theorem wwrite_end (f : WFile) (bs : Bytes) (h : f.cur = f.data.length) :
    wwrite f bs = ⟨f.data ++ bs, f.data.length + bs.length⟩ := by
  unfold wwrite
  rw [h, writeAt_end]

theorem zfoldl_eq {Code : Type} (dumps : Code → Bytes) (compress : Bytes → Nat → Bytes)
    (code_dict : String → Option Code) (cipherArg : Option Cipher) (codeF : ZEntry → Code) :
    ∀ (es : List ZEntry) (t : ZToc) (f : WFile),
      f.cur = f.data.length →
      (∀ e ∈ es, code_dict e.name = some (codeF e)) →
      es.foldlM (zadd dumps compress code_dict cipherArg) (t, f) =
        .ok (tocFold dumps compress cipherArg codeF es f.cur t,
          ⟨f.data ++ payloadBytes dumps compress cipherArg codeF es,
            f.cur + (payloadBytes dumps compress cipherArg codeF es).length⟩)
  | [], t, f, hcur, _ => by
    simp only [List.foldlM_nil, payloadBytes, tocFold, List.append_nil, List.length_nil,
      Nat.add_zero]
    rfl
  | e :: es, t, f, hcur, hcd => by
    have he : code_dict e.name = some (codeF e) := hcd e (List.mem_cons_self _ _)
    rw [List.foldlM_cons]
    show (zadd dumps compress code_dict cipherArg (t, f) e) >>= _ = _
    rw [zadd, he]
    simp only
    have hobj : (match cipherArg with
        | some c => c.encrypt (compress (dumps (codeF e)) COMPRESSION_LEVEL)
        | none => compress (dumps (codeF e)) COMPRESSION_LEVEL) =
        storedOf dumps compress cipherArg (codeF e) := by
      cases cipherArg <;> rfl
    rw [hobj, wwrite_end f _ hcur]
    show List.foldlM _ _ _ = _
    rw [zfoldl_eq dumps compress code_dict cipherArg codeF es _ _ (by simp)
      (fun x hx => hcd x (List.mem_cons_of_mem _ hx))]
    simp only [tocFold, payloadBytes, hcur, List.append_assoc, List.length_append]
    rw [Nat.add_assoc]

theorem tocSet_append {α : Type} (t : List (String × α)) (k : String) (v : α)
    (h : k ∉ t.map Prod.fst) : tocSet t k v = t ++ [(k, v)] := by
  unfold tocSet
  rw [if_neg]
  intro hc
  rcases List.any_eq_true.mp hc with ⟨p, hp, hpk⟩
  exact h (List.mem_map.mpr ⟨p, hp, (of_decide_eq_true hpk).symm ▸ rfl⟩)

theorem tocFold_append {Code : Type} (dumps : Code → Bytes) (compress : Bytes → Nat → Bytes)
    (cipherArg : Option Cipher) (codeF : ZEntry → Code) :
    ∀ (es : List ZEntry) (off : Nat) (t : ZToc),
      (es.map ZEntry.name).Nodup →
      (∀ e ∈ es, e.name ∉ t.map Prod.fst) →
      tocFold dumps compress cipherArg codeF es off t =
        t ++ tocListSpec dumps compress cipherArg codeF es off
  | [], _, t, _, _ => by simp [tocFold, tocListSpec]
  | e :: es, off, t, hnd, hdisj => by
    rw [List.map_cons] at hnd
    have hnotin : e.name ∉ es.map ZEntry.name := (List.nodup_cons.mp hnd).1
    have hndtl : (es.map ZEntry.name).Nodup := (List.nodup_cons.mp hnd).2
    simp only [tocFold]
    rw [tocSet_append t e.name _ (hdisj e (List.mem_cons_self _ _))]
    rw [tocFold_append dumps compress cipherArg codeF es _ _ hndtl
      (by
        intro x hx
        rw [List.map_append]
        intro hc
        rcases List.mem_append.mp hc with hm | hm
        · exact hdisj x (List.mem_cons_of_mem _ hx) hm
        · have hx1 : x.name = e.name := by simpa using hm
          exact hnotin (hx1 ▸ List.mem_map_of_mem ZEntry.name hx))]
    rw [List.append_assoc]
    rfl

theorem tocListSpec_extract {Code : Type} (dumps : Code → Bytes)
    (compress : Bytes → Nat → Bytes) (cipherArg : Option Cipher) (codeF : ZEntry → Code) :
    ∀ (es : List ZEntry) (off : Nat) (e : ZEntry),
      (es.map ZEntry.name).Nodup → e ∈ es →
      ∀ (pre suf : Bytes), pre.length = off →
        ∃ pos,
          tocGet (tocListSpec dumps compress cipherArg codeF es off) e.name =
            some (ispkgOf e.pth, pos, (storedOf dumps compress cipherArg (codeF e)).length) ∧
          readAt (pre ++ payloadBytes dumps compress cipherArg codeF es ++ suf) pos
              (storedOf dumps compress cipherArg (codeF e)).length =
            storedOf dumps compress cipherArg (codeF e)
  | a :: es, off, e, hnd, he, pre, suf, hpre => by
    rw [List.map_cons] at hnd
    have hnotin : a.name ∉ es.map ZEntry.name := (List.nodup_cons.mp hnd).1
    have hndtl : (es.map ZEntry.name).Nodup := (List.nodup_cons.mp hnd).2
    rcases List.mem_cons.mp he with rfl | hes
    · refine ⟨off, ?_, ?_⟩
      · simp only [tocListSpec]
        unfold tocGet
        rw [List.find?_cons_of_pos _ (by simp)]
        rfl
      · simp only [payloadBytes]
        rw [← hpre]
        unfold readAt
        rw [List.append_assoc, List.append_assoc, List.drop_left,
          ← List.append_assoc, List.take_append_of_le_length (by simp),
          List.take_left]
    · have hne : a.name ≠ e.name := by
        intro hc
        exact hnotin (hc ▸ List.mem_map_of_mem ZEntry.name hes)
      rcases tocListSpec_extract dumps compress cipherArg codeF es
          (off + (storedOf dumps compress cipherArg (codeF a)).length) e
          hndtl hes
          (pre ++ storedOf dumps compress cipherArg (codeF a)) suf
          (by simp [hpre]) with ⟨pos, hget, hread⟩
      refine ⟨pos, ?_, ?_⟩
      · simp only [tocListSpec]
        unfold tocGet at hget ⊢
        rw [List.find?_cons_of_neg _ (by simpa using hne)]
        exact hget
      · simp only [payloadBytes]
        simpa [List.append_assoc] using hread

theorem finalizeZ_eq (pymagic : Bytes) (dumpsT : ZToc → Bytes) (flag : Nat) (toc : ZToc)
    (f1 : WFile) (hcur : f1.cur = f1.data.length) (hsz : f1.cur < 2147483648)
    (hpm : pymagic.length = 4) :
    finalizeZ pymagic dumpsT flag toc f1 =
      .ok ((MAGIC_PYZ ++ pymagic ++ packBE32 f1.cur ++ [flag]) ++
        (f1.data ++ dumpsT toc).drop 13, toc) := by
  unfold finalizeZ
  rw [wwrite_end _ _ hcur]
  simp only
  rw [if_pos (hcur ▸ hsz)]
  unfold wseek wwrite
  simp only
  rw [writeAt_zero]
  have hlen : (MAGIC_PYZ ++ pymagic ++ packBE32 f1.cur ++ [flag]).length = 13 := by
    simp [MAGIC_PYZ, packBE32, hpm]
  rw [hlen]

/-- The full byte-level layout `buildZ` produces: 13 written header bytes
(MAGIC, pymagic, packed TOC position, crypted flag), the 4 remaining
reserved zero bytes, the payload region, and the marshalled TOC. -/
theorem buildZ_eq {Code : Type} (pymagic : Bytes) (dumps : Code → Bytes)
    (compress : Bytes → Nat → Bytes) (dumpsT : ZToc → Bytes)
    (code_dict : String → Option Code) (cipherArg : Option Cipher) (codeF : ZEntry → Code)
    (entries : List ZEntry)
    (hcd : ∀ e ∈ entries, code_dict e.name = some (codeF e))
    (hpm : pymagic.length = 4)
    (hsz : ZLIB_HDRLEN + (payloadBytes dumps compress cipherArg codeF entries).length <
      2147483648) :
    buildZ pymagic dumps compress dumpsT code_dict cipherArg entries =
      .ok (MAGIC_PYZ ++ pymagic ++
            packBE32 (ZLIB_HDRLEN + (payloadBytes dumps compress cipherArg codeF entries).length) ++
            [if cipherArg.isSome then 1 else 0] ++ List.replicate 4 0 ++
            payloadBytes dumps compress cipherArg codeF entries ++
            dumpsT (tocFold dumps compress cipherArg codeF entries ZLIB_HDRLEN []),
          tocFold dumps compress cipherArg codeF entries ZLIB_HDRLEN []) := by
  unfold buildZ
  rw [zfoldl_eq dumps compress code_dict cipherArg codeF entries [] _ (by simp) hcd]
  show finalizeZ pymagic dumpsT (if cipherArg.isSome then 1 else 0)
    (tocFold dumps compress cipherArg codeF entries ZLIB_HDRLEN []) _ = _
  rw [finalizeZ_eq _ _ _ _ _ (by simp) (by simpa using hsz) hpm]
  generalize dumpsT (tocFold dumps compress cipherArg codeF entries ZLIB_HDRLEN []) = T
  generalize hP : payloadBytes dumps compress cipherArg codeF entries = P
  congr 1
  have hrep : List.replicate ZLIB_HDRLEN (0 : Nat) =
      List.replicate 13 0 ++ List.replicate 4 0 := by
    rw [show ZLIB_HDRLEN = 13 + 4 from rfl]
    exact List.replicate_add 13 4 0
  have hassoc : (((List.replicate 13 (0 : Nat) ++ List.replicate 4 0) ++ P) ++ T) =
      List.replicate 13 (0 : Nat) ++ ((List.replicate 4 0 ++ P) ++ T) := by
    simp [List.append_assoc]
  show ((MAGIC_PYZ ++ pymagic ++ packBE32 (ZLIB_HDRLEN + P.length) ++
      [if cipherArg.isSome then 1 else 0]) ++
      ((List.replicate ZLIB_HDRLEN 0 ++ P) ++ T).drop 13, _) =
    (_, _)
  rw [hrep, hassoc, List.drop_left' (by simp)]
  simp [List.append_assoc]

/-! ### Reading back a built archive -/

theorem readAt_block (a b rest : Bytes) (pos n : Nat) (hpos : pos = a.length)
    (hn : n = b.length) : readAt (a ++ b ++ rest) pos n = b := by
  subst hpos hn
  rw [List.append_assoc]
  unfold readAt
  rw [List.drop_left, List.take_left]

theorem zlibLayout_magic (pm : Bytes) (flag : Nat) (P T : Bytes) :
    readAt (zlibLayout pm flag P T) 0 MAGIC_PYZ.length = MAGIC_PYZ := by
  have h : zlibLayout pm flag P T =
      ([] ++ MAGIC_PYZ) ++ (pm ++ packBE32 (ZLIB_HDRLEN + P.length) ++ [flag] ++
        List.replicate 4 0 ++ P ++ T) := by
    simp [zlibLayout, List.append_assoc]
  rw [h]
  exact readAt_block _ _ _ _ _ (by simp) rfl

theorem zlibLayout_pymagic (pm : Bytes) (flag : Nat) (P T : Bytes) :
    readAt (zlibLayout pm flag P T) 4 pm.length = pm := by
  have h : zlibLayout pm flag P T =
      MAGIC_PYZ ++ pm ++ (packBE32 (ZLIB_HDRLEN + P.length) ++ [flag] ++
        List.replicate 4 0 ++ P ++ T) := by
    simp [zlibLayout, List.append_assoc]
  rw [h]
  exact readAt_block _ _ _ _ _ rfl rfl

theorem zlibLayout_tocpos (pm : Bytes) (flag : Nat) (P T : Bytes) (hpm : pm.length = 4) :
    readAt (zlibLayout pm flag P T) 8 4 = packBE32 (ZLIB_HDRLEN + P.length) := by
  have h : zlibLayout pm flag P T =
      (MAGIC_PYZ ++ pm) ++ packBE32 (ZLIB_HDRLEN + P.length) ++ ([flag] ++
        List.replicate 4 0 ++ P ++ T) := by
    simp [zlibLayout, List.append_assoc]
  rw [h]
  exact readAt_block _ _ _ _ _ (by simp [MAGIC_PYZ, hpm]) (by simp [packBE32])

theorem zlibLayout_flag (pm : Bytes) (flag : Nat) (P T : Bytes) (hpm : pm.length = 4) :
    readAt (zlibLayout pm flag P T) 12 1 = [flag] := by
  have h : zlibLayout pm flag P T =
      (MAGIC_PYZ ++ pm ++ packBE32 (ZLIB_HDRLEN + P.length)) ++ [flag] ++
        (List.replicate 4 0 ++ P ++ T) := by
    simp [zlibLayout, List.append_assoc]
  rw [h]
  exact readAt_block _ _ _ _ _ (by simp [MAGIC_PYZ, packBE32, hpm]) rfl

theorem zlibLayout_tocblob (pm : Bytes) (flag : Nat) (P T : Bytes) (hpm : pm.length = 4) :
    readFrom (zlibLayout pm flag P T) (ZLIB_HDRLEN + P.length) = T := by
  have h : zlibLayout pm flag P T =
      (MAGIC_PYZ ++ pm ++ packBE32 (ZLIB_HDRLEN + P.length) ++ [flag] ++
        List.replicate 4 0 ++ P) ++ T := by
    simp [zlibLayout, List.append_assoc]
  rw [h]
  unfold readFrom
  exact List.drop_left' (by
    simp [MAGIC_PYZ, packBE32, hpm, ZLIB_HDRLEN, ARCHIVE_HDRLEN]
    omega)

theorem checkmagicBase_zlibLayout (pm : Bytes) (flag : Nat) (P T : Bytes)
    (cls path : String) :
    checkmagicBase MAGIC_PYZ pm cls path (zlibLayout pm flag P T) 0 = .ok () := by
  unfold checkmagicBase
  rw [if_neg (by
    rw [zlibLayout_magic pm flag P T]
    exact fun hc => hc rfl)]
  rw [if_neg (by
    rw [show (0 : Nat) + MAGIC_PYZ.length = 4 from rfl, zlibLayout_pymagic pm flag P T]
    exact fun hc => hc rfl)]

theorem checkmagicZ_zlibLayout (pm : Bytes) (flag : Nat) (P T : Bytes)
    (cls path : String) (dflt : Cipher) (hpm : pm.length = 4) :
    checkmagicZ pm cls path (zlibLayout pm flag P T) 0 dflt =
      .ok (flag, if flag ≠ 0 then some dflt else none) := by
  unfold checkmagicZ
  rw [checkmagicBase_zlibLayout pm flag P T cls path]
  show (match readAt (zlibLayout pm flag P T) (0 + MAGIC_PYZ.length + pm.length + 4) 1 with
    | [b] => if b ≠ 0 then Except.ok (b, some dflt) else Except.ok (b, none)
    | _ => Except.error PyExc.structError) = _
  rw [show (0 : Nat) + MAGIC_PYZ.length + pm.length + 4 = 12 by
    simp [MAGIC_PYZ, hpm]]
  rw [zlibLayout_flag pm flag P T hpm]
  show (if flag ≠ 0 then Except.ok (flag, some dflt) else Except.ok (flag, none)) = _
  by_cases hf : flag ≠ 0
  · rw [if_pos hf, if_pos hf]
  · rw [if_neg hf, if_neg hf]

theorem loadtoc_zlibLayout {T0 : Type} (loadsT : Bytes → Except PyExc T0)
    (pm : Bytes) (flag : Nat) (P T : Bytes) (hpm : pm.length = 4)
    (hsz : ZLIB_HDRLEN + P.length < 2147483648) :
    loadtocModel loadsT (zlibLayout pm flag P T) 0 = loadsT T := by
  unfold loadtocModel
  rw [show (0 : Nat) + TOCPOS = 8 from rfl, zlibLayout_tocpos pm flag P T hpm,
    unpackBE32i_packBE32 _ hsz]
  show (if ((ZLIB_HDRLEN + P.length : Nat) : Int) < 0 then Except.error PyExc.osError
    else loadsT (readFrom (zlibLayout pm flag P T)
      (0 + ((ZLIB_HDRLEN + P.length : Nat) : Int).toNat))) = loadsT T
  rw [if_neg (not_lt.mpr (by positivity))]
  rw [show ((ZLIB_HDRLEN + P.length : Nat) : Int).toNat = ZLIB_HDRLEN + P.length from
    Int.toNat_natCast _]
  rw [Nat.zero_add, zlibLayout_tocblob pm flag P T hpm]

theorem initZ_zlibLayout (pm : Bytes) (loadsT : Bytes → Except PyExc ZToc)
    (dflt : Cipher) (fs : String → Bytes) (path : String) (cipherArg : Option Cipher)
    (flag : Nat) (P T : Bytes) (toc : ZToc) (hpm : pm.length = 4)
    (hsz : ZLIB_HDRLEN + P.length < 2147483648)
    (hfs : fs path = zlibLayout pm flag P T)
    (hq : '?' ∉ path.toList)
    (hT : loadsT T = .ok toc) :
    initZ pm loadsT dflt fs path none cipherArg =
      .ok { path := path, start := 0, toc := toc,
            crypted := if cipherArg.isSome then 1 else 0,
            cipher := match cipherArg with
              | some c => some c
              | none => if flag ≠ 0 then some dflt else none } := by
  unfold initZ
  rw [parseSuffix_no_qmark path hq]
  simp only
  rw [if_neg (by simp)]
  rw [show ((0 : Int)).toNat = 0 from rfl, hfs]
  rw [show checkmagicZ pm "ZlibArchive" path (zlibLayout pm flag P T) 0 dflt >>= _ =
    _ from rfl]
  rw [checkmagicZ_zlibLayout pm flag P T "ZlibArchive" path dflt hpm]
  show (loadtocModel loadsT (zlibLayout pm flag P T) 0) >>= _ = _
  rw [loadtoc_zlibLayout loadsT pm flag P T hpm hsz, hT]
  cases cipherArg <;> rfl

theorem zextract_found {Obj : Type} (decompress : Bytes → Except PyExc Bytes)
    (loads : Bytes → Except PyExc Obj) (toc : ZToc) (data : Bytes) (start crypted : Nat)
    (cipher : Option Cipher) (name : String) (ispkg : Bool) (pos lngth : Nat)
    (hget : tocGet toc name = some (ispkg, pos, lngth)) :
    zextract decompress loads toc data start crypted cipher name =
      (if crypted ≠ 0 then
        match cipher with
        | some c => zextractCore decompress loads name ispkg
            (c.decrypt (readAt data (start + pos) lngth))
        | none => .error .attributeError
      else zextractCore decompress loads name ispkg (readAt data (start + pos) lngth)) := by
  unfold zextract
  rw [hget]

theorem zextractCore_ok {Obj : Type} (decompress : Bytes → Except PyExc Bytes)
    (loads : Bytes → Except PyExc Obj) (name : String) (ispkg : Bool) (obj b : Bytes)
    (code : Obj) (h1 : decompress obj = .ok b) (h2 : loads b = .ok code) :
    zextractCore decompress loads name ispkg obj = .ok (some (ispkg, code)) := by
  unfold zextractCore
  rw [show (do loads (← decompress obj) : Except PyExc Obj) = decompress obj >>= loads
    from rfl, h1]
  show (match loads b with
    | Except.ok co => Except.ok (some (ispkg, co))
    | Except.error e => _) = _
  rw [h2]

/-- C1. Round-trip: an archive built by `build()` from entries with
distinct names (payloads through the `code_dict` mapping), reopened via
the constructor and queried with `extract(name)`, returns
`(isPackage, payload)` for every entry — assuming the cipher's `decrypt`
inverts its `encrypt`, `zlib.decompress` inverts `zlib.compress`, and
`marshal.loads` inverts `marshal.dumps` (on the TOC as well). -/
theorem zlib_roundtrip {Code : Type} (pymagic : Bytes)
    (dumps : Code → Bytes) (compress : Bytes → Nat → Bytes)
    (decompress : Bytes → Except PyExc Bytes) (loads : Bytes → Except PyExc Code)
    (dumpsT : ZToc → Bytes) (loadsT : Bytes → Except PyExc ZToc)
    (code_dict : String → Option Code) (codeF : ZEntry → Code)
    (cipherArg : Option Cipher) (dflt : Cipher)
    (entries : List ZEntry) (path : String) (fs : String → Bytes)
    (archData : Bytes) (toc : ZToc)
    (hpm : pymagic.length = 4)
    (hnd : (entries.map ZEntry.name).Nodup)
    (hcd : ∀ e ∈ entries, code_dict e.name = some (codeF e))
    (hsz : ZLIB_HDRLEN + (payloadBytes dumps compress cipherArg codeF entries).length <
      2147483648)
    (hcip : ∀ c, cipherArg = some c → ∀ b, c.decrypt (c.encrypt b) = b)
    (hzlib : ∀ b, decompress (compress b COMPRESSION_LEVEL) = .ok b)
    (hmarshal : ∀ e ∈ entries, loads (dumps (codeF e)) = .ok (codeF e))
    (hbuild : buildZ pymagic dumps compress dumpsT code_dict cipherArg entries =
      .ok (archData, toc))
    (hT : loadsT (dumpsT toc) = .ok toc)
    (hq : '?' ∉ path.toList)
    (hfs : fs path = archData)
    (e : ZEntry) (he : e ∈ entries) :
    ∃ inst, initZ pymagic loadsT dflt fs path none cipherArg = .ok inst ∧
      zextract decompress loads inst.toc archData inst.start inst.crypted inst.cipher
        e.name = .ok (some (ispkgOf e.pth, codeF e)) := by
  rw [buildZ_eq pymagic dumps compress dumpsT code_dict cipherArg codeF entries hcd hpm hsz]
    at hbuild
  have hpair := Except.ok.inj hbuild
  have hdata : archData = zlibLayout pymagic (if cipherArg.isSome then 1 else 0)
      (payloadBytes dumps compress cipherArg codeF entries)
      (dumpsT (tocFold dumps compress cipherArg codeF entries ZLIB_HDRLEN [])) :=
    (congrArg Prod.fst hpair).symm
  have htoc : toc = tocFold dumps compress cipherArg codeF entries ZLIB_HDRLEN [] :=
    (congrArg Prod.snd hpair).symm
  have hinit := initZ_zlibLayout pymagic loadsT dflt fs path cipherArg
    (if cipherArg.isSome then 1 else 0)
    (payloadBytes dumps compress cipherArg codeF entries)
    (dumpsT (tocFold dumps compress cipherArg codeF entries ZLIB_HDRLEN []))
    toc hpm hsz (hfs.trans hdata) hq (htoc ▸ hT)
  refine ⟨_, hinit, ?_⟩
  -- the in-memory TOC is the spec list, since names are distinct
  have htoclist : toc = tocListSpec dumps compress cipherArg codeF entries ZLIB_HDRLEN := by
    rw [htoc, tocFold_append dumps compress cipherArg codeF entries ZLIB_HDRLEN [] hnd
      (by intro x hx; simp)]
    rfl
  -- locate the entry and its stored bytes
  have hpre : (MAGIC_PYZ ++ pymagic ++
      packBE32 (ZLIB_HDRLEN + (payloadBytes dumps compress cipherArg codeF entries).length) ++
      [if cipherArg.isSome then 1 else 0] ++ List.replicate 4 0).length = ZLIB_HDRLEN := by
    simp [MAGIC_PYZ, packBE32, hpm, ZLIB_HDRLEN, ARCHIVE_HDRLEN]
  rcases tocListSpec_extract dumps compress cipherArg codeF entries ZLIB_HDRLEN e hnd he
      (MAGIC_PYZ ++ pymagic ++
        packBE32 (ZLIB_HDRLEN + (payloadBytes dumps compress cipherArg codeF entries).length) ++
        [if cipherArg.isSome then 1 else 0] ++ List.replicate 4 0)
      (dumpsT (tocFold dumps compress cipherArg codeF entries ZLIB_HDRLEN []))
      hpre with ⟨pos, hget, hread⟩
  have hreadL : readAt archData pos
      (storedOf dumps compress cipherArg (codeF e)).length =
      storedOf dumps compress cipherArg (codeF e) := by
    rw [hdata]
    rw [show zlibLayout pymagic (if cipherArg.isSome then 1 else 0)
        (payloadBytes dumps compress cipherArg codeF entries)
        (dumpsT (tocFold dumps compress cipherArg codeF entries ZLIB_HDRLEN [])) =
      (MAGIC_PYZ ++ pymagic ++
        packBE32 (ZLIB_HDRLEN + (payloadBytes dumps compress cipherArg codeF entries).length) ++
        [if cipherArg.isSome then 1 else 0] ++ List.replicate 4 0) ++
        payloadBytes dumps compress cipherArg codeF entries ++
        dumpsT (tocFold dumps compress cipherArg codeF entries ZLIB_HDRLEN []) from by
      simp [zlibLayout, List.append_assoc]]
    exact hread
  -- run the extract
  rcases cipherArg with _ | c
  · show zextract decompress loads toc archData 0 0 none e.name =
      Except.ok (some (ispkgOf e.pth, codeF e))
    rw [zextract_found decompress loads toc archData 0 0 none e.name (ispkgOf e.pth) pos
      (storedOf dumps compress none (codeF e)).length (htoclist ▸ hget)]
    rw [if_neg (by simp)]
    rw [Nat.zero_add, hreadL]
    rw [show storedOf dumps compress none (codeF e) =
      compress (dumps (codeF e)) COMPRESSION_LEVEL from rfl]
    exact zextractCore_ok decompress loads e.name (ispkgOf e.pth) _ _ (codeF e)
      (hzlib (dumps (codeF e))) (hmarshal e he)
  · show zextract decompress loads toc archData 0 1 (some c) e.name =
      Except.ok (some (ispkgOf e.pth, codeF e))
    rw [zextract_found decompress loads toc archData 0 1 (some c) e.name (ispkgOf e.pth) pos
      (storedOf dumps compress (some c) (codeF e)).length (htoclist ▸ hget)]
    rw [if_pos (by simp)]
    show zextractCore decompress loads e.name (ispkgOf e.pth)
      (c.decrypt (readAt archData (0 + pos)
        (storedOf dumps compress (some c) (codeF e)).length)) = _
    rw [Nat.zero_add, hreadL]
    rw [show storedOf dumps compress (some c) (codeF e) =
      c.encrypt (compress (dumps (codeF e)) COMPRESSION_LEVEL) from rfl]
    rw [hcip c rfl]
    exact zextractCore_ok decompress loads e.name (ispkgOf e.pth) _ _ (codeF e)
      (hzlib (dumps (codeF e))) (hmarshal e he)

/-- C1 witness: a two-entry build with no cipher, reopened and extracted
at a concrete input. -/
theorem zlib_roundtrip_witness :
    ∃ inst, initZ [1, 2, 3, 4] Conc.loadsTN Conc.idCipher Conc.fsN "ar.pyz" none none =
      .ok inst ∧
      zextract Conc.decompressN Conc.loadsN inst.toc Conc.builtDataN inst.start inst.crypted
        inst.cipher "pkg.__init__" = .ok (some (true, 7)) :=
  zlib_roundtrip [1, 2, 3, 4] Conc.dumpsN Conc.compressN Conc.decompressN Conc.loadsN
    Conc.dumpsTN Conc.loadsTN Conc.code_dictN Conc.codeFN none Conc.idCipher Conc.entriesN
    "ar.pyz" Conc.fsN Conc.builtDataN Conc.builtTocN rfl (by decide)
    (by
      intro e he
      rcases List.mem_cons.mp he with rfl | he
      · rfl
      · rcases List.mem_cons.mp he with rfl | he
        · rfl
        · cases he)
    (by decide)
    (fun c hc => Option.noConfusion hc)
    (fun b => rfl)
    (by
      intro e he
      rcases List.mem_cons.mp he with rfl | he
      · rfl
      · rcases List.mem_cons.mp he with rfl | he
        · rfl
        · cases he)
    rfl rfl (by decide) rfl ⟨"pkg.__init__", "pkg/__init__.pyc"⟩ (by decide)

/-- C4. Header offset correctness: after `build()`, the 4 bytes at
offset 8 of the header are the big-endian packed position of the TOC
blob (= header length + payload length); seeking there reads exactly the
marshalled TOC, so `loadtoc` recovers the TOC that was saved. -/
theorem build_header_toc_offset {Code : Type} (pymagic : Bytes)
    (dumps : Code → Bytes) (compress : Bytes → Nat → Bytes)
    (dumpsT : ZToc → Bytes) (loadsT : Bytes → Except PyExc ZToc)
    (code_dict : String → Option Code) (codeF : ZEntry → Code)
    (cipherArg : Option Cipher) (entries : List ZEntry) (archData : Bytes) (toc : ZToc)
    (hpm : pymagic.length = 4)
    (hcd : ∀ e ∈ entries, code_dict e.name = some (codeF e))
    (hsz : ZLIB_HDRLEN + (payloadBytes dumps compress cipherArg codeF entries).length <
      2147483648)
    (hbuild : buildZ pymagic dumps compress dumpsT code_dict cipherArg entries =
      .ok (archData, toc))
    (hT : loadsT (dumpsT toc) = .ok toc) :
    readAt archData 8 4 =
      packBE32 (ZLIB_HDRLEN + (payloadBytes dumps compress cipherArg codeF entries).length) ∧
    unpackBE32i (readAt archData 8 4) =
      some ((ZLIB_HDRLEN + (payloadBytes dumps compress cipherArg codeF entries).length : Nat) :
        Int) ∧
    readFrom archData
      (ZLIB_HDRLEN + (payloadBytes dumps compress cipherArg codeF entries).length) =
      dumpsT toc ∧
    loadtocModel loadsT archData 0 = .ok toc := by
  rw [buildZ_eq pymagic dumps compress dumpsT code_dict cipherArg codeF entries hcd hpm hsz]
    at hbuild
  have hpair := Except.ok.inj hbuild
  have hdata : archData = zlibLayout pymagic (if cipherArg.isSome then 1 else 0)
      (payloadBytes dumps compress cipherArg codeF entries)
      (dumpsT (tocFold dumps compress cipherArg codeF entries ZLIB_HDRLEN [])) :=
    (congrArg Prod.fst hpair).symm
  have htoc : toc = tocFold dumps compress cipherArg codeF entries ZLIB_HDRLEN [] :=
    (congrArg Prod.snd hpair).symm
  rw [hdata, ← htoc]
  refine ⟨?_, ?_, ?_, ?_⟩
  · rw [htoc]
    exact zlibLayout_tocpos pymagic _ _ _ hpm
  · rw [htoc, zlibLayout_tocpos pymagic _ _ _ hpm]
    exact unpackBE32i_packBE32 _ hsz
  · rw [htoc]
    exact zlibLayout_tocblob pymagic _ _ _ hpm
  · rw [htoc, loadtoc_zlibLayout loadsT pymagic _ _ _ hpm hsz, ← htoc, hT]

/-- C4 witness: the concrete two-entry build has its TOC at position 21
and `loadtoc` recovers it. -/
theorem build_header_toc_offset_witness :
    readAt Conc.builtDataN 8 4 = packBE32 21 ∧
    unpackBE32i (readAt Conc.builtDataN 8 4) = some 21 ∧
    readFrom Conc.builtDataN 21 = Conc.dumpsTN Conc.builtTocN ∧
    loadtocModel Conc.loadsTN Conc.builtDataN 0 = .ok Conc.builtTocN :=
  build_header_toc_offset [1, 2, 3, 4] Conc.dumpsN Conc.compressN Conc.dumpsTN Conc.loadsTN
    Conc.code_dictN Conc.codeFN none Conc.entriesN Conc.builtDataN Conc.builtTocN rfl
    (by
      intro e he
      rcases List.mem_cons.mp he with rfl | he
      · rfl
      · rcases List.mem_cons.mp he with rfl | he
        · rfl
        · cases he)
    (by decide) rfl rfl

/-- C2. In `ZlibArchive.add` with a configured cipher the bytes appended
at the recorded offset are exactly `encrypt(compress(P, 6))` (compression
at level 6 strictly before encryption) and the recorded stored length is
their length; with `cipher=None` the stored bytes are `compress(P, 6)`
with no encryption, and the encrypted flag byte written into the header
of a cipherless build is 0. -/
theorem zlib_add_compress_then_encrypt {Code : Type} (dumps : Code → Bytes)
    (compress : Bytes → Nat → Bytes) (code_dict : String → Option Code)
    (c : Cipher) (P : Code) (e : ZEntry) (t : ZToc) (f : WFile)
    (hcur : f.cur = f.data.length)
    (hP : code_dict e.name = some P) :
    zadd dumps compress code_dict (some c) (t, f) e =
      .ok (tocSet t e.name
            (ispkgOf e.pth, f.cur, (c.encrypt (compress (dumps P) 6)).length),
          ⟨f.data ++ c.encrypt (compress (dumps P) 6),
            f.data.length + (c.encrypt (compress (dumps P) 6)).length⟩) ∧
    zadd dumps compress code_dict none (t, f) e =
      .ok (tocSet t e.name (ispkgOf e.pth, f.cur, (compress (dumps P) 6).length),
          ⟨f.data ++ compress (dumps P) 6,
            f.data.length + (compress (dumps P) 6).length⟩) ∧
    (∀ (pymagic : Bytes) (dumpsT : ZToc → Bytes) (codeF : ZEntry → Code)
      (entries : List ZEntry) (archData : Bytes) (toc : ZToc),
      pymagic.length = 4 →
      (∀ x ∈ entries, code_dict x.name = some (codeF x)) →
      ZLIB_HDRLEN + (payloadBytes dumps compress none codeF entries).length < 2147483648 →
      buildZ pymagic dumps compress dumpsT code_dict none entries = .ok (archData, toc) →
      readAt archData 12 1 = [0]) := by
  refine ⟨?_, ?_, ?_⟩
  · unfold zadd
    rw [hP]
    simp only
    rw [wwrite_end f _ hcur, hcur]
    rfl
  · unfold zadd
    rw [hP]
    simp only
    rw [wwrite_end f _ hcur, hcur]
    rfl
  · intro pymagic dumpsT codeF entries archData toc hpm hcd hsz hbuild
    rw [buildZ_eq pymagic dumps compress dumpsT code_dict none codeF entries hcd hpm hsz]
      at hbuild
    have hdata : archData = zlibLayout pymagic 0
        (payloadBytes dumps compress none codeF entries)
        (dumpsT (tocFold dumps compress none codeF entries ZLIB_HDRLEN [])) :=
      (congrArg Prod.fst (Except.ok.inj hbuild)).symm
    rw [hdata]
    exact zlibLayout_flag pymagic 0 _ _ hpm

/-- C2 witness: the concrete add at the end of a file, under an identity
cipher and without one, plus the flag byte of the concrete cipherless
build. -/
theorem zlib_add_compress_then_encrypt_witness :
    zadd Conc.dumpsN Conc.compressN Conc.code_dictN (some Conc.idCipher)
        ([], ⟨[7, 7], 2⟩) ⟨"pkg.mod", "pkg/mod.pyc"⟩ =
      .ok ([("pkg.mod", (false, 2, 2))], ⟨[7, 7, 99, 8], 4⟩) ∧
    zadd Conc.dumpsN Conc.compressN Conc.code_dictN none
        ([], ⟨[7, 7], 2⟩) ⟨"pkg.mod", "pkg/mod.pyc"⟩ =
      .ok ([("pkg.mod", (false, 2, 2))], ⟨[7, 7, 99, 8], 4⟩) ∧
    readAt Conc.builtDataN 12 1 = [0] := by
  have h := zlib_add_compress_then_encrypt Conc.dumpsN Conc.compressN Conc.code_dictN
    Conc.idCipher 8 ⟨"pkg.mod", "pkg/mod.pyc"⟩ [] ⟨[7, 7], 2⟩ rfl rfl
  refine ⟨?_, ?_, ?_⟩
  · exact h.1
  · exact h.2.1
  · exact h.2.2 [1, 2, 3, 4] Conc.dumpsTN Conc.codeFN Conc.entriesN Conc.builtDataN
      Conc.builtTocN rfl
      (by
        intro e he
        rcases List.mem_cons.mp he with rfl | he
        · rfl
        · rcases List.mem_cons.mp he with rfl | he
          · rfl
          · cases he)
      (by decide) rfl

/-- C3. Opening an existing file whose 4 bytes at the start offset are
not the expected magic raises `ArchiveReadError` naming the path, for
every TOC deserializer and every remaining file content — so the TOC is
never loaded; when the magic matches but the Python-magic
runtime-compatibility marker does not, a distinct `ArchiveReadError` is
raised, also naming the path. -/
theorem archive_checkmagic_errors {T : Type} (pymagic : Bytes) (cls path : String) :
    (∀ (loadsT : Bytes → Except PyExc T) (data : Bytes) (start : Nat),
      readAt data start MAGIC_PYL.length ≠ MAGIC_PYL →
        initBase pymagic loadsT cls path data start =
          .error (.archiveBadMagic path cls)) ∧
    (∀ (loadsT : Bytes → Except PyExc T) (data : Bytes) (start : Nat),
      readAt data start MAGIC_PYL.length = MAGIC_PYL →
      readAt data (start + MAGIC_PYL.length) pymagic.length ≠ pymagic →
        initBase pymagic loadsT cls path data start =
          .error (.archiveVersionMismatch path)) ∧
    PyExc.archiveBadMagic path cls ≠ PyExc.archiveVersionMismatch path ∧
    pyExcMsg (.archiveBadMagic path cls) =
      path ++ " is not a valid " ++ cls ++ " archive file" ∧
    pyExcMsg (.archiveVersionMismatch path) = path ++ " has version mismatch to dll" := by
  refine ⟨?_, ?_, ?_, rfl, rfl⟩
  · intro loadsT data start h
    unfold initBase checkmagicBase
    rw [if_pos h]
    rfl
  · intro loadsT data start h1 h2
    unfold initBase checkmagicBase
    rw [if_neg (fun hc => hc h1), if_pos h2]
    rfl
  · intro hc
    cases hc

/-- C3 witness: a file of four zero bytes fails the magic check, and a
file with the right magic but wrong Python magic fails the version
check, with the two distinct errors. -/
theorem archive_checkmagic_errors_witness :
    initBase (T := ZToc) [1, 2, 3, 4] Conc.loadsTN "Archive" "bad.pyl" [0, 0, 0, 0] 0 =
      .error (.archiveBadMagic "bad.pyl" "Archive") ∧
    initBase (T := ZToc) [1, 2, 3, 4] Conc.loadsTN "Archive" "old.pyl"
        [80, 89, 76, 0, 9, 9, 9, 9] 0 =
      .error (.archiveVersionMismatch "old.pyl") ∧
    PyExc.archiveBadMagic "old.pyl" "Archive" ≠ PyExc.archiveVersionMismatch "old.pyl" := by
  have h1 := (archive_checkmagic_errors (T := ZToc) [1, 2, 3, 4] "Archive" "bad.pyl").1
    Conc.loadsTN [0, 0, 0, 0] 0 (by decide)
  have h2 := (archive_checkmagic_errors (T := ZToc) [1, 2, 3, 4] "Archive" "old.pyl").2.1
    Conc.loadsTN [80, 89, 76, 0, 9, 9, 9, 9] 0 (by decide) (by decide)
  have h3 := (archive_checkmagic_errors (T := ZToc) [1, 2, 3, 4] "Archive" "old.pyl").2.2.1
  exact ⟨h1, h2, h3⟩

/-- C6. `extract` on a name absent from the in-memory TOC returns `None`
(the `.ok none` of the model, not an exception), in both the base
`Archive` and the `ZlibArchive`. -/
theorem extract_unknown_name_absent {Obj : Type} (loads : Bytes → Except PyExc Obj)
    (decompress : Bytes → Except PyExc Bytes) (tocB : List (String × BTocEntry))
    (tocZ : ZToc) (data : Bytes) (start crypted : Nat) (cipher : Option Cipher)
    (name : String)
    (hB : tocGet tocB name = none) (hZ : tocGet tocZ name = none) :
    extractBase loads tocB data start name = .ok none ∧
    zextract decompress loads tocZ data start crypted cipher name = .ok none := by
  constructor
  · unfold extractBase
    rw [hB]
  · unfold zextract
    rw [hZ]

/-- C6 witness: an unknown dotted name against concrete non-empty TOCs. -/
theorem extract_unknown_name_absent_witness :
    extractBase Conc.loadsN [("pkg.mod", (false, 12))] Conc.builtDataN 0 "does.not.exist" =
      .ok none ∧
    zextract Conc.decompressN Conc.loadsN Conc.builtTocN Conc.builtDataN 0 0 none
      "does.not.exist" = .ok none :=
  extract_unknown_name_absent Conc.loadsN Conc.decompressN [("pkg.mod", (false, 12))]
    Conc.builtTocN Conc.builtDataN 0 0 none "does.not.exist" (by decide) (by decide)

/-- C5. Path-suffix parsing in `ZlibArchive.__init__` when `offset` is
omitted: a path ending in `?` followed by a decimal digit string yields
that integer as the start offset with the suffix (including the `?`)
stripped; when the text after the last `?` does not parse as an integer,
the offset is 0 and the path is left unchanged, with no error. -/
theorem zlib_path_suffix_parsing :
    (∀ pre ds : List Char, ds ≠ [] → ds.all pyIsDigit = true →
      parseSuffix (String.mk (pre ++ '?' :: ds)) = (String.mk pre, (digitsVal ds : Int))) ∧
    (∀ pre suf : List Char, '?' ∉ suf → pyIntParseL suf = none →
      parseSuffix (String.mk (pre ++ '?' :: suf)) = (String.mk (pre ++ '?' :: suf), 0)) := by
  constructor
  · intro pre ds h1 h2
    show (String.mk (parseSuffixAux (pre ++ '?' :: ds) (pre ++ '?' :: ds).length).1,
      (parseSuffixAux (pre ++ '?' :: ds) (pre ++ '?' :: ds).length).2) = _
    rw [show (pre ++ '?' :: ds).length = pre.length + 1 + ds.length from by
      simp
      omega]
    rw [parseSuffixAux_digits pre ds h1 h2]
  · intro pre suf hq hp
    show (String.mk (parseSuffixAux (pre ++ '?' :: suf) (pre ++ '?' :: suf).length).1,
      (parseSuffixAux (pre ++ '?' :: suf) (pre ++ '?' :: suf).length).2) = _
    rw [show (pre ++ '?' :: suf).length = pre.length + 1 + suf.length from by
      simp
      omega]
    rw [parseSuffixAux_malformed pre suf hq hp]

/-- C5 witness: the two spec examples. -/
theorem zlib_path_suffix_parsing_witness :
    parseSuffix "archive.bin?1024" = ("archive.bin", 1024) ∧
    parseSuffix "archive.bin?notanumber" = ("archive.bin?notanumber", 0) := by
  constructor
  · exact zlib_path_suffix_parsing.1 "archive.bin".toList "1024".toList (by decide) (by decide)
  · exact zlib_path_suffix_parsing.2 "archive.bin".toList "notanumber".toList (by decide)
      (by decide)

theorem zextractCore_err {Obj : Type} (decompress : Bytes → Except PyExc Bytes)
    (loads : Bytes → Except PyExc Obj) (name : String) (ispkg : Bool) (obj : Bytes)
    (e : PyExc) (h : decompress obj >>= loads = .error e) :
    zextractCore decompress loads name ispkg obj =
      .error (if e = .eofError
        then .impError ("PYZ entry " ++ name ++ " failed to unmarshal") else e) := by
  unfold zextractCore
  rw [show (do loads (← decompress obj) : Except PyExc Obj) = decompress obj >>= loads
    from rfl, h]
  show (if e = PyExc.eofError
      then Except.error (PyExc.impError ("PYZ entry " ++ name ++ " failed to unmarshal"))
      else Except.error e) = _
  by_cases he : e = .eofError
  · rw [if_pos he, if_pos he]
  · rw [if_neg he, if_neg he]

/-- C7 counterexample: an entry present in the TOC whose stored bytes
fail to decompress makes `extract` propagate `zlib.error` itself — not
the UnmarshalError (`ImportError`) the claim requires for decompression
failures. -/
theorem zlib_extract_decompress_error_cex :
    zextract (fun _ => .error .zlibError) Conc.loadsN [("m", (false, 0, 3))]
      [1, 2, 3] 0 0 none "m" = .error .zlibError ∧
    isUnmarshalError .zlibError = false ∧
    (Except.error PyExc.zlibError : Except PyExc (Option (Bool × Nat))) ≠ .ok none :=
  ⟨rfl, rfl, fun hc => Except.noConfusion hc⟩

/-- C7 amended: when the decompress-then-unmarshal pipeline of a TOC
entry fails, `extract` raises an exception: an `EOFError` is converted
to the `ImportError` naming the entry, any other exception (e.g.
`zlib.error` or `ValueError`) propagates unchanged; either way the
result is an exception, distinguishable from the `None` returned for an
absent name, and every other entry whose pipeline succeeds still
extracts normally. -/
theorem zlib_extract_failure_amended {Obj : Type} (decompress : Bytes → Except PyExc Bytes)
    (loads : Bytes → Except PyExc Obj) (toc : ZToc) (data : Bytes) (start : Nat)
    (name : String) (ispkg : Bool) (pos lngth : Nat) (e : PyExc)
    (hget : tocGet toc name = some (ispkg, pos, lngth))
    (hfail : decompress (readAt data (start + pos) lngth) >>= loads = .error e) :
    zextract decompress loads toc data start 0 none name =
      .error (if e = .eofError
        then .impError ("PYZ entry " ++ name ++ " failed to unmarshal") else e) ∧
    (∀ r : Option (Bool × Obj),
      zextract decompress loads toc data start 0 none name ≠ .ok r) ∧
    (∀ (name2 : String) (ispkg2 : Bool) (pos2 l2 : Nat) (b2 : Bytes) (code2 : Obj),
      tocGet toc name2 = some (ispkg2, pos2, l2) →
      decompress (readAt data (start + pos2) l2) = .ok b2 → loads b2 = .ok code2 →
      zextract decompress loads toc data start 0 none name2 = .ok (some (ispkg2, code2))) := by
  have h1 : zextract decompress loads toc data start 0 none name =
      .error (if e = .eofError
        then .impError ("PYZ entry " ++ name ++ " failed to unmarshal") else e) := by
    rw [zextract_found decompress loads toc data start 0 none name ispkg pos lngth hget]
    rw [if_neg (by simp)]
    exact zextractCore_err decompress loads name ispkg _ e hfail
  refine ⟨h1, ?_, ?_⟩
  · intro r hc
    exact Except.noConfusion (h1.symm.trans hc)
  · intro name2 ispkg2 pos2 l2 b2 code2 hget2 hd2 hl2
    rw [zextract_found decompress loads toc data start 0 none name2 ispkg2 pos2 l2 hget2]
    rw [if_neg (by simp)]
    exact zextractCore_ok decompress loads name2 ispkg2 _ b2 code2 hd2 hl2

/-- C7 amended witness: a TOC with one corrupt entry and one good one
over the concrete built file. -/
theorem zlib_extract_failure_amended_witness :
    zextract Conc.decompressN Conc.loadsN
        [("bad", (false, 0, 2)), ("pkg.mod", (false, 19, 2))] Conc.builtDataN 0 0 none
        "bad" = .error .zlibError ∧
    zextract Conc.decompressN Conc.loadsN
        [("bad", (false, 0, 2)), ("pkg.mod", (false, 19, 2))] Conc.builtDataN 0 0 none
        "pkg.mod" = .ok (some (false, 8)) := by
  have h := zlib_extract_failure_amended Conc.decompressN Conc.loadsN
    [("bad", (false, 0, 2)), ("pkg.mod", (false, 19, 2))] Conc.builtDataN 0 "bad" false 0 2
    .zlibError (by decide) rfl
  exact ⟨h.1, h.2.2 "pkg.mod" false 19 2 [8] 8 (by decide) rfl rfl⟩

theorem zlibLayout_deadzone (pm : Bytes) (flag : Nat) (P T : Bytes) (hpm : pm.length = 4) :
    readAt (zlibLayout pm flag P T) 13 4 = List.replicate 4 0 := by
  have h : zlibLayout pm flag P T =
      (MAGIC_PYZ ++ pm ++ packBE32 (ZLIB_HDRLEN + P.length) ++ [flag]) ++
        List.replicate 4 0 ++ (P ++ T) := by
    simp [zlibLayout, List.append_assoc]
  rw [h]
  exact readAt_block _ _ _ _ _ (by simp [MAGIC_PYZ, packBE32, hpm]) rfl

theorem zlibLayout_payload (pm : Bytes) (flag : Nat) (P T : Bytes) (hpm : pm.length = 4) :
    readAt (zlibLayout pm flag P T) ZLIB_HDRLEN P.length = P := by
  have h : zlibLayout pm flag P T =
      (MAGIC_PYZ ++ pm ++ packBE32 (ZLIB_HDRLEN + P.length) ++ [flag] ++
        List.replicate 4 0) ++ P ++ T := by
    simp [zlibLayout, List.append_assoc]
  rw [h]
  exact readAt_block _ _ _ _ _
    (by
      simp [MAGIC_PYZ, packBE32, hpm, ZLIB_HDRLEN, ARCHIVE_HDRLEN]) rfl

/-- C8 counterexample: `ZlibArchive.HDRLEN` is `12 + 5 = 17`, not 13,
and on a concrete build the first payload is recorded at offset 17. -/
theorem zlib_hdrlen_cex :
    ZLIB_HDRLEN ≠ 13 ∧ ZLIB_HDRLEN = 17 ∧
    buildZ [1, 2, 3, 4] Conc.dumpsN Conc.compressN Conc.dumpsTN Conc.code_dictN none
      Conc.entriesN = .ok (Conc.builtDataN, Conc.builtTocN) ∧
    tocGet Conc.builtTocN "pkg.__init__" = some (true, 17, 2) :=
  ⟨by decide, rfl, rfl, rfl⟩

/-- C8 amended: the compressed variant reserves `HDRLEN = 12 + 5 = 17`
bytes at build start; finalize rewrites only the first 13 of them (the
12-byte base fields plus the one-byte encrypted flag at offset 12), the
remaining 4 reserved bytes stay zero, and the payload region begins at
offset 17, not 13. -/
theorem zlib_header_layout_amended (pm : Bytes) (flag : Nat) (P T : Bytes) (tocPos : Nat)
    (hpm : pm.length = 4) :
    ZLIB_HDRLEN = ARCHIVE_HDRLEN + 5 ∧ ZLIB_HDRLEN = 17 ∧
    (MAGIC_PYZ ++ pm ++ packBE32 tocPos ++ [flag]).length = 13 ∧
    readAt (zlibLayout pm flag P T) 12 1 = [flag] ∧
    readAt (zlibLayout pm flag P T) 13 4 = List.replicate 4 0 ∧
    readAt (zlibLayout pm flag P T) ZLIB_HDRLEN P.length = P :=
  ⟨rfl, rfl, by simp [MAGIC_PYZ, packBE32, hpm],
    zlibLayout_flag pm flag P T hpm, zlibLayout_deadzone pm flag P T hpm,
    zlibLayout_payload pm flag P T hpm⟩

/-- C8 amended witness: the layout facts at a concrete header. -/
theorem zlib_header_layout_amended_witness :
    ZLIB_HDRLEN = ARCHIVE_HDRLEN + 5 ∧ ZLIB_HDRLEN = 17 ∧
    (MAGIC_PYZ ++ [1, 2, 3, 4] ++ packBE32 21 ++ [0]).length = 13 ∧
    readAt (zlibLayout [1, 2, 3, 4] 0 [99, 7, 99, 8] []) 12 1 = [0] ∧
    readAt (zlibLayout [1, 2, 3, 4] 0 [99, 7, 99, 8] []) 13 4 = List.replicate 4 0 ∧
    readAt (zlibLayout [1, 2, 3, 4] 0 [99, 7, 99, 8] []) ZLIB_HDRLEN 4 = [99, 7, 99, 8] :=
  zlib_header_layout_amended [1, 2, 3, 4] 0 [99, 7, 99, 8] [] 21 rfl

/-- C9. Reads through the lazy `ArchiveFile` handle are unaffected by a
`close()` followed by a reopen inserted between two reads: the returned
byte strings are the same as with the handle never closed. `close`
records the cursor via `tell()` and the next open seeks a fresh handle
to that recorded cursor (0 initially, as the third conjunct states). -/
theorem archiveFile_reopen_preserves_reads (data : Bytes) (s : AFile) (c : Nat)
    (h : s.fd = some c) (ns1 ns2 : List Nat) :
    (afReadsWithReopen data s ns1 ns2).map Prod.fst =
      (afReads data s (ns1 ++ ns2)).map Prod.fst ∧
    afOpen (afClose s) = ⟨c, some c⟩ ∧
    afInit = ⟨0, some 0⟩ := by
  obtain ⟨p, fd⟩ := s
  simp only at h
  subst h
  refine ⟨?_, rfl, rfl⟩
  simp only [afReadsWithReopen, afReads_eq data, afClose, afOpen, Option.bind_eq_bind,
    Option.some_bind, Option.map_some, readOuts_append data]
  rfl

/-- C9 witness: a concrete read sequence with a close/reopen inserted. -/
theorem archiveFile_reopen_preserves_reads_witness :
    (afReadsWithReopen Conc.builtDataN afInit [4, 4] [4, 1]).map Prod.fst =
      (afReads Conc.builtDataN afInit [4, 4, 4, 1]).map Prod.fst ∧
    afOpen (afClose afInit) = ⟨0, some 0⟩ ∧
    afInit = ⟨0, some 0⟩ :=
  archiveFile_reopen_preserves_reads Conc.builtDataN afInit 0 rfl [4, 4] [4, 1]

/-- C10. Constructing a `ZlibArchive` over an existing file whose stored
encrypted flag byte is 0 while passing a cipher: after `checkmagic` has
read and validated the header (including that flag), the constructor
forces `crypted = 1` and installs the supplied cipher, and every
subsequent `extract` of a TOC entry applies `cipher.decrypt` to the
stored bytes before decompressing, regardless of what the file
declares. -/
theorem zlib_cipher_forces_crypted {Obj : Type} (pm : Bytes)
    (loadsT : Bytes → Except PyExc ZToc) (dflt : Cipher) (fs : String → Bytes)
    (path : String) (c : Cipher) (P T : Bytes) (toc : ZToc)
    (decompress : Bytes → Except PyExc Bytes) (loads : Bytes → Except PyExc Obj)
    (hpm : pm.length = 4)
    (hsz : ZLIB_HDRLEN + P.length < 2147483648)
    (hfs : fs path = zlibLayout pm 0 P T)
    (hq : '?' ∉ path.toList)
    (hT : loadsT T = .ok toc) :
    readAt (zlibLayout pm 0 P T) 12 1 = [0] ∧
    initZ pm loadsT dflt fs path none (some c) =
      .ok { path := path, start := 0, toc := toc, crypted := 1, cipher := some c } ∧
    (∀ (name : String) (ispkg : Bool) (pos lngth : Nat),
      tocGet toc name = some (ispkg, pos, lngth) →
      zextract decompress loads toc (zlibLayout pm 0 P T) 0 1 (some c) name =
        zextractCore decompress loads name ispkg
          (c.decrypt (readAt (zlibLayout pm 0 P T) (0 + pos) lngth))) := by
  refine ⟨zlibLayout_flag pm 0 P T hpm, ?_, ?_⟩
  · exact initZ_zlibLayout pm loadsT dflt fs path (some c) 0 P T toc hpm hsz hfs hq hT
  · intro name ispkg pos lngth hget
    rw [zextract_found decompress loads toc (zlibLayout pm 0 P T) 0 1 (some c) name
      ispkg pos lngth hget]
    rw [if_pos (by simp)]

/-- C10 witness: the concrete cipherless-flag file opened with the
identity cipher. -/
theorem zlib_cipher_forces_crypted_witness :
    readAt (zlibLayout [1, 2, 3, 4] 0 [99, 7, 99, 8] []) 12 1 = [0] ∧
    initZ [1, 2, 3, 4] Conc.loadsTN Conc.idCipher Conc.fsN "ar.pyz" none
        (some Conc.idCipher) =
      .ok { path := "ar.pyz", start := 0, toc := Conc.builtTocN, crypted := 1,
            cipher := some Conc.idCipher } ∧
    zextract Conc.decompressN Conc.loadsN Conc.builtTocN
        (zlibLayout [1, 2, 3, 4] 0 [99, 7, 99, 8] []) 0 1 (some Conc.idCipher)
        "pkg.__init__" =
      zextractCore Conc.decompressN Conc.loadsN "pkg.__init__" true
        (Conc.idCipher.decrypt
          (readAt (zlibLayout [1, 2, 3, 4] 0 [99, 7, 99, 8] []) (0 + 17) 2)) := by
  have h := zlib_cipher_forces_crypted [1, 2, 3, 4] Conc.loadsTN Conc.idCipher Conc.fsN
    "ar.pyz" Conc.idCipher [99, 7, 99, 8] [] Conc.builtTocN Conc.decompressN Conc.loadsN
    rfl (by decide) rfl (by decide) rfl
  exact ⟨h.1, h.2.1, h.2.2 "pkg.__init__" true 17 2 (by decide)⟩

end Pyimod02Archive
